import Mathlib

/-!
Shallow embedding of the reconciliation fetcher in `clean_fetch.py`
(class `CleanFetcher`): the record store (`self.all_events`), range
fetching with pagination (`fetch_by_date_range`), the 7-day window plan
(`phase1_date_based_fetch`), gap analysis (`analyze_missing_ids`),
point lookups (`fetch_by_id`, `phase2_id_based_fetch`) and the final
sort (`save_to_file`).  Dates are modelled as integer day numbers;
HTTP interactions are modelled by explicit response values handed to
the embedded functions.
-/

namespace CleanFetch

/-- One registry record, with the two fields the core reads
(`service_request_id` and `requested_datetime`, both may be absent in
the JSON object, hence `Option`) and an opaque payload standing for all
fields that are passed through unmodified. -/
structure Event where
  service_request_id : Option String
  requested_datetime : Option String
  payload : Nat
deriving DecidableEq, Repr

/-- A key of the Python dict `self.all_events`.  Phase 1 inserts only
truthy string keys, but Phase 2 stores under `event.get("service_request_id")`,
which may be `None`; a Python dict accepts `None` as a key, so keys are
`Option String`. -/
abbrev StoreKey := Option String

/-- The store `self.all_events`, a Python dict, modelled as an
insertion-ordered association list with unique keys. -/
abbrev Store := List (StoreKey × Event)

/-- Dict assignment `self.all_events[k] = v`: update in place when the
key is present, append otherwise (Python dicts keep insertion order). -/
def storeMerge (s : Store) (k : StoreKey) (v : Event) : Store :=
  if k ∈ s.map Prod.fst then
    s.map (fun p => if p.1 = k then (k, v) else p)
  else s ++ [(k, v)]

/-- Dict lookup `self.all_events.get(k)`. -/
def storeLookup (s : Store) (k : StoreKey) : Option Event :=
  (s.find? (fun p => p.1 = k)).map Prod.snd

/-- The Phase-1 merge step (lines 132-135): store the event under its
`service_request_id` only when that value is truthy (present and not
the empty string). -/
def phase1StoreEvent (s : Store) (e : Event) : Store :=
  match e.service_request_id with
  | some sid => if sid ≠ "" then storeMerge s (some sid) e else s
  | none => s

/-- The registry's answer to one `GET /requests.json?...&page=N` request:
either a JSON array of records, or a transport/server error (a raised
exception: connection failure, non-2xx status from `raise_for_status`,
malformed JSON). -/
inductive PageResult where
  | ok (items : List Event)
  | err
deriving DecidableEq, Repr

/-- The pagination loop of `fetch_by_date_range` (lines 73-97).  The
input list gives the registry's successive responses to pages 1, 2, ...;
the result is the collected events, the number of page requests made,
and whether an error was caught (and logged) mid-pagination.
The loop breaks on an empty page, on a page of fewer than 100 items
(after collecting it), and on an error (keeping earlier pages). -/
def fetch_by_date_range : List PageResult → List Event × Nat × Bool
  | [] => ([], 0, false)
  | .err :: _ => ([], 1, true)
  | .ok p :: rest =>
      if p.isEmpty then ([], 1, false)
      else if p.length < 100 then (p, 1, false)
      else
        let r := fetch_by_date_range rest
        (p ++ r.1, r.2.1 + 1, r.2.2)

/-- Number of page requests a window fetch makes. -/
def pageRequests (resps : List PageResult) : Nat :=
  (fetch_by_date_range resps).2.1

/-- A page of `n` distinct records, for concrete pagination scenarios. -/
def mkPage (n : Nat) : List Event :=
  (List.range n).map (fun i => { service_request_id := none, requested_datetime := none, payload := i })

/-- The window size constant `window_days = 7` (line 113). -/
def window_days : Int := 7

/-- The window-planning loop of `phase1_date_based_fetch` (lines
114-120), on dates as integer day numbers:
`while current <= end: wend = min(current + 6, end); push (current, wend);
current = wend + 1`. -/
def mkWindows (current endDate : Int) : List (Int × Int) :=
  if _h : current ≤ endDate then
    let wEnd := min (current + (window_days - 1)) endDate
    (current, wEnd) :: mkWindows (wEnd + 1) endDate
  else []
termination_by (endDate + 1 - current).toNat
decreasing_by
  simp only [window_days]
  omega

/-- The per-window loop of Phase 1 (lines 127-135): fetch each window
(`server` maps a window to the registry's page responses for it) and
merge every event the fetch returned into the store. -/
def runWindows (server : Int × Int → List PageResult)
    (ws : List (Int × Int)) (s : Store) : Store :=
  ws.foldl (fun st w => ((fetch_by_date_range (server w)).1).foldl phase1StoreEvent st) s

/-- The Phase-1 sweep (lines 112-135): plan the windows and run the
per-window fetch-and-merge loop over them; a window whose fetch errored
still has its collected pages merged, and later windows still run. -/
def phase1_date_based_fetch (startDate endDate : Int)
    (server : Int × Int → List PageResult) (s : Store) : Store :=
  runWindows server (mkWindows startDate endDate) s

/-- The membership test of line 157, `"-" in event_id`, on the key's
character list. -/
def hasDash (eid : String) : Bool :=
  eid.toList.contains '-'

/-- Python's `event_id.split("-")` on the key's character list: split
at every dash; n dashes give n+1 parts. -/
def splitOnDash : List Char → List (List Char)
  | [] => [[]]
  | c :: cs =>
      match splitOnDash cs with
      | [] => [[]]
      | p :: ps => if c = '-' then [] :: p :: ps else (c :: p) :: ps

/-- Python's `int(parts[0])` on the digit strings that occur in
composite IDs: a nonempty all-digit part parses to its value; an empty
or non-digit part raises in Python, modelled as `none`. -/
def parseDigits (cs : List Char) : Option Nat :=
  if cs = [] then none
  else
    cs.foldl
      (fun acc c =>
        acc.bind (fun n => if c.isDigit then some (n * 10 + (c.toNat - 48)) else none))
      (some 0)

/-- Parsing of one store key in `analyze_missing_ids` (lines 157-161):
`parts = event_id.split("-"); id_num = int(parts[0]); year = parts[1]`.
Returns `none` when `int(parts[0])` would raise, or when the key has no
dash at all (then `split` yields a single part). -/
def parseDashKey (eid : String) : Option (Nat × String) :=
  match splitOnDash eid.toList with
  | p0 :: p1 :: _ => (parseDigits p0).map (fun n => (n, String.mk p1))
  | _ => none

/-- The grouping loop of `analyze_missing_ids` (lines 155-161): keys
containing a dash are parsed into `(id_num, year)`; the whole analysis
raises (modelled as `none`) when any such key has a non-numeric first
part. -/
def ids_by_year (keys : List String) : Option (List (Nat × String)) :=
  (keys.filter hasDash).mapM parseDashKey

/-- The set of sequence numbers observed for one partition (year). -/
def observedIds (parsed : List (Nat × String)) (year : String) : Finset Nat :=
  (parsed.filterMap (fun p => if p.2 = year then some p.1 else none)).toFinset

/-- The partitions present in the grouped keys, in the sorted order the
code iterates them (`for year in sorted(ids_by_year.keys())`). -/
def sortedYears (parsed : List (Nat × String)) : List String :=
  ((parsed.map Prod.snd).dedup).insertionSort (fun a b => a ≤ b)

/-- Gap analysis, `analyze_missing_ids` (lines 143-185): for each year
with at least one observed ID, `expected = set(range(1, max_id + 1))`
and `missing = expected - ids`; the result maps each such year to its
missing set.  Years with no observed IDs never enter the grouping, so
they get no entry. -/
def analyze_missing_ids (keys : List String) : Option (List (String × Finset Nat)) :=
  (ids_by_year keys).map (fun parsed =>
    (sortedYears parsed).filterMap (fun y =>
      let ids := observedIds parsed y
      if ids = ∅ then none
      else some (y, Finset.Icc 1 (ids.sup id) \ ids)))

/-- The registry's answer to one point lookup
`GET /requests/{id}.json`: an HTTP status with a JSON array body, or a
transport-level failure (a raised exception before any status). -/
inductive IdResponse where
  | status (code : Nat) (body : List Event)
  | transportError
deriving DecidableEq, Repr

/-- Point lookup `fetch_by_id` (lines 187-219): `raise_for_status`
raises on any non-2xx status, caught and turned into `None` (404 is the
tombstone case, others are logged); a 2xx with a nonempty array yields
its first element, a 2xx with an empty array falls through to `None`;
transport errors are caught and yield `None`. -/
def fetch_by_id (resp : IdResponse) : Option Event :=
  match resp with
  | .transportError => none
  | .status code body =>
      if 200 ≤ code ∧ code < 300 then
        match body with
        | [] => none
        | e :: _ => some e
      else none

/-- The per-ID body of the Phase-2 loop (lines 269-288), acting on
`(all_events, fetched_count, not_found_count)`: a found event is stored
under the `service_request_id` field of the returned event itself and
counted as fetched; otherwise the not-found counter is bumped. -/
def phase2Step (acc : Store × Nat × Nat) (resp : IdResponse) : Store × Nat × Nat :=
  match fetch_by_id resp with
  | some e => (storeMerge acc.1 e.service_request_id e, acc.2.1 + 1, acc.2.2)
  | none => (acc.1, acc.2.1, acc.2.2 + 1)

/-- The composite ID string built by `fetch_by_id` for the request URL:
`f"{id_num}-{year}"` (line 198). -/
def mkServiceRequestId (idNum : Nat) (year : String) : String :=
  toString idNum ++ "-" ++ year

/-- The batching of missing IDs in Phase 2 (lines 259-260):
`missing_ids[i:i+100]` for `i = 0, 100, 200, ...`. -/
def toBatches (l : List Nat) : List (List Nat) :=
  match l with
  | [] => []
  | x :: xs => (x :: xs).take 100 :: toBatches ((x :: xs).drop 100)
termination_by l.length
decreasing_by simp only [List.drop_succ_cons, List.length_cons, List.length_drop]; omega

/-- One year of the Phase-2 loop (lines 244-292): sorted missing IDs,
batched by 100, each looked up (`server` gives the registry's response
per sequence number) and folded through `phase2Step`. -/
def phase2RunYear (server : Nat → IdResponse) (missing : Finset Nat)
    (acc : Store × Nat × Nat) : Store × Nat × Nat :=
  (toBatches (missing.sort (· ≤ ·))).foldl
    (fun a batch => batch.foldl (fun a2 n => phase2Step a2 (server n)) a) acc

/-- Externally visible actions of the Phase-2 loop: issuing one point
lookup, or sleeping.  The loop body (lines 269-288) contains a lookup
and no sleep call, so the emitted trace per ID is a single lookup. -/
inductive P2Action where
  | lookup (idNum : Nat) (year : String)
  | delay
deriving DecidableEq, Repr

/-- Whether an action is a point lookup. -/
def isLookup : P2Action → Bool
  | .lookup _ _ => true
  | .delay => false

/-- The action trace of one year of the Phase-2 loop: for each ID of
each batch, in order, the loop issues exactly one lookup (there is no
sleep in the loop body). -/
def phase2TraceYear (year : String) (missing : Finset Nat) : List P2Action :=
  ((toBatches (missing.sort (· ≤ ·))).map
    (fun batch => batch.map (fun n => P2Action.lookup n year))).flatten

/-- A trace enforces a delay between consecutive lookups when no two
lookup actions are ever adjacent. -/
def rateLimited (tr : List P2Action) : Prop :=
  tr.Chain' (fun a b => ¬(isLookup a = true ∧ isLookup b = true))

/-- The sort key of `save_to_file` (line 312):
`e.get("requested_datetime", "")`. -/
def sortKey (e : Event) : String :=
  (e.requested_datetime).getD ""

/-- The ordering used by `save_to_file`: sort by `requested_datetime`
with `reverse=True`, i.e. descending sort key. -/
def byDateDesc (a b : Event) : Prop := sortKey b ≤ sortKey a

instance : DecidableRel byDateDesc := fun a b =>
  inferInstanceAs (Decidable (sortKey b ≤ sortKey a))

instance : IsTotal Event byDateDesc := ⟨fun a b => le_total (sortKey b) (sortKey a)⟩

instance : IsTrans Event byDateDesc := ⟨fun _ _ _ hab hbc => le_trans hbc hab⟩

/-- Finalisation `save_to_file` (lines 301-319): the dict's values as a
list, sorted by `requested_datetime` descending (the file write itself
is I/O and not modelled; the persisted list is the returned value). -/
def save_to_file (s : Store) : List Event :=
  List.insertionSort byDateDesc (s.map Prod.snd)

/-- The session object built by `__init__` (lines 32-50): the parsed
dates (as day numbers; `date.fromisoformat` succeeding is assumed by
taking dates already as integers) and an empty store.  The constructor
performs no comparison of the two dates. -/
structure CleanFetcher where
  start_date : Int
  end_date : Int
  all_events : Store
deriving DecidableEq, Repr

/-- Constructor `CleanFetcher(start_date, end_date)`: stores the dates
and initialises the empty store; it is total — no validation that
`start_date <= end_date` exists in the code. -/
def CleanFetcher.init (s e : Int) : CleanFetcher :=
  { start_date := s, end_date := e, all_events := [] }

end CleanFetch

namespace CleanFetch

lemma keys_storeMerge (s : Store) (k : StoreKey) (v : Event) :
    (storeMerge s k v).map Prod.fst =
      if k ∈ s.map Prod.fst then s.map Prod.fst else s.map Prod.fst ++ [k] := by
  unfold storeMerge
  split_ifs with h
  · rw [List.map_map]
    apply List.map_congr_left
    intro p _
    by_cases hp : p.1 = k
    · simp [hp]
    · simp [hp]
  · simp

lemma mem_keys_storeMerge {s : Store} {k : StoreKey} {v : Event} {x : StoreKey} :
    x ∈ (storeMerge s k v).map Prod.fst ↔ x ∈ s.map Prod.fst ∨ x = k := by
  rw [keys_storeMerge]
  split_ifs with h
  · constructor
    · intro hx; exact Or.inl hx
    · rintro (hx | rfl)
      · exact hx
      · exact h
  · simp

lemma nodup_keys_storeMerge {s : Store} {k : StoreKey} {v : Event}
    (h : (s.map Prod.fst).Nodup) :
    ((storeMerge s k v).map Prod.fst).Nodup := by
  rw [keys_storeMerge]
  split_ifs with hk
  · exact h
  · simp [List.nodup_append, h, hk]

lemma isSome_storeLookup_of_mem {s : Store} {k : StoreKey}
    (h : k ∈ s.map Prod.fst) : (storeLookup s k).isSome := by
  unfold storeLookup
  obtain ⟨p, hp, hpk⟩ := List.mem_map.mp h
  have hsome : (List.find? (fun p => decide (p.1 = k)) s).isSome :=
    List.find?_isSome.mpr ⟨p, hp, by simp [hpk]⟩
  obtain ⟨q, hq⟩ := Option.isSome_iff_exists.mp hsome
  rw [hq]
  rfl

lemma find?_map_upd (s : Store) (k : StoreKey) (v : Event) (k' : StoreKey) :
    (s.map (fun p => if p.1 = k then (k, v) else p)).find? (fun p => decide (p.1 = k')) =
      if k' = k then ((s.find? (fun p => decide (p.1 = k))).map (fun _ => (k, v)))
      else s.find? (fun p => decide (p.1 = k')) := by
  induction s with
  | nil => simp
  | cons a s ih =>
    simp only [List.map_cons]
    by_cases hak : a.1 = k
    · rw [if_pos hak]
      by_cases hk' : k' = k
      · subst hk'
        rw [List.find?_cons_of_pos _ (by simp), List.find?_cons_of_pos _ (by simp [hak])]
        simp
      · rw [if_neg hk', List.find?_cons_of_neg _ (by simpa using fun h => hk' h.symm),
          List.find?_cons_of_neg _ (by simp only [decide_eq_true_eq, hak]; exact fun h => hk' h.symm),
          ih, if_neg hk']
    · rw [if_neg hak]
      by_cases hak' : a.1 = k'
      · have hk' : k' ≠ k := fun h => hak (hak'.symm ▸ h)
        rw [List.find?_cons_of_pos _ (by simp [hak']), if_neg hk',
          List.find?_cons_of_pos _ (by simp [hak'])]
      · rw [List.find?_cons_of_neg _ (by simp [hak']), ih]
        by_cases hk' : k' = k
        · subst hk'
          rw [if_pos rfl, if_pos rfl, List.find?_cons_of_neg _ (by simp [hak])]
        · rw [if_neg hk', if_neg hk', List.find?_cons_of_neg _ (by simp [hak'])]

lemma storeLookup_storeMerge_self (s : Store) (k : StoreKey) (v : Event) :
    storeLookup (storeMerge s k v) k = some v := by
  unfold storeMerge
  split_ifs with h
  · unfold storeLookup
    rw [find?_map_upd, if_pos rfl]
    obtain ⟨p, hp, hpk⟩ := List.mem_map.mp h
    have hsome : (List.find? (fun p => decide (p.1 = k)) s).isSome :=
      List.find?_isSome.mpr ⟨p, hp, by simp [hpk]⟩
    obtain ⟨q, hq⟩ := Option.isSome_iff_exists.mp hsome
    rw [hq]
    rfl
  · unfold storeLookup
    rw [List.find?_append]
    have h1 : s.find? (fun p => decide (p.1 = k)) = none := by
      rw [List.find?_eq_none]
      intro p hp
      simp only [decide_eq_true_eq]
      intro hn
      exact h (List.mem_map.mpr ⟨p, hp, hn⟩)
    rw [h1]
    simp [List.find?]

lemma storeLookup_storeMerge_ne {s : Store} {k : StoreKey} {v : Event} {k' : StoreKey}
    (h : k' ≠ k) :
    storeLookup (storeMerge s k v) k' = storeLookup s k' := by
  unfold storeMerge
  split_ifs with hm
  · unfold storeLookup
    rw [find?_map_upd, if_neg h]
  · unfold storeLookup
    rw [List.find?_append]
    cases hfind : s.find? (fun p => decide (p.1 = k')) with
    | some p => simp [hfind]
    | none => simp [hfind, List.find?, Ne.symm h]

/-- Merging a sequence of keyed records into a store, one dict
assignment per element (the shape of both merge loops, lines 132-135
and 273-275). -/
def mergeAll (s : Store) (l : List (StoreKey × Event)) : Store :=
  l.foldl (fun st kv => storeMerge st kv.1 kv.2) s

lemma mergeAll_nodup_and_mem (l : List (StoreKey × Event)) :
    ∀ s : Store, (s.map Prod.fst).Nodup →
      ((mergeAll s l).map Prod.fst).Nodup ∧
      (∀ x, x ∈ (mergeAll s l).map Prod.fst ↔ x ∈ s.map Prod.fst ∨ x ∈ l.map Prod.fst) := by
  induction l with
  | nil => intro s hs; simp [mergeAll, hs]
  | cons kv l ih =>
    intro s hs
    have h1 := nodup_keys_storeMerge (k := kv.1) (v := kv.2) hs
    obtain ⟨hn, hm⟩ := ih (storeMerge s kv.1 kv.2) h1
    refine ⟨hn, fun x => ?_⟩
    have hstep : mergeAll s (kv :: l) = mergeAll (storeMerge s kv.1 kv.2) l := rfl
    rw [hstep, hm x, mem_keys_storeMerge]
    simp only [List.map_cons, List.mem_cons]
    tauto

end CleanFetch

namespace CleanFetch

/-- C4: for any sequence of record merges into the store, in any order
with any duplicates, the store keys stay duplicate-free (at most one
record per composite ID), the final record count equals the number of
distinct composite IDs merged, and a later merge with an already
present ID replaces the earlier record. -/
theorem store_dedup_invariant (l : List (StoreKey × Event)) :
    ((mergeAll [] l).map Prod.fst).Nodup ∧
      (mergeAll [] l).length = (l.map Prod.fst).dedup.length ∧
      (∀ s k v, storeLookup (storeMerge s k v) k = some v) := by
  obtain ⟨hn, hm⟩ := mergeAll_nodup_and_mem l [] (by simp)
  refine ⟨hn, ?_, fun s k v => storeLookup_storeMerge_self s k v⟩
  have hlen : (mergeAll [] l).length = ((mergeAll [] l).map Prod.fst).length :=
    (List.length_map _ _).symm
  rw [hlen]
  have hperm : List.Perm ((mergeAll [] l).map Prod.fst) ((l.map Prod.fst).dedup) := by
    rw [List.perm_ext_iff_of_nodup hn (List.nodup_dedup _)]
    intro a
    rw [List.mem_dedup]
    simpa using hm a
  exact hperm.length_eq

end CleanFetch

namespace CleanFetch

lemma mkPage_length (n : Nat) : (mkPage n).length = n := by
  simp [mkPage]

lemma pageRequests_pos (resps : List PageResult) (h : resps ≠ []) :
    1 ≤ pageRequests resps := by
  cases resps with
  | nil => exact absurd rfl h
  | cons r rs =>
    cases r with
    | err => simp [pageRequests, fetch_by_date_range]
    | ok p =>
      simp only [pageRequests, fetch_by_date_range]
      split_ifs <;> simp

lemma fetch_full_page_step (p : List Event) (rest : List PageResult)
    (hp : p.length = 100) :
    fetch_by_date_range (.ok p :: rest) =
      ((p ++ (fetch_by_date_range rest).1, (fetch_by_date_range rest).2.1 + 1,
        (fetch_by_date_range rest).2.2)) := by
  have hne : ¬p.isEmpty = true := by
    cases p with
    | nil => simp at hp
    | cons a l => simp
  simp only [fetch_by_date_range, hne, if_false, Bool.false_eq_true]
  rw [if_neg (by omega)]

lemma fetch_short_page (p : List Event) (rest : List PageResult)
    (h0 : p ≠ []) (hlt : p.length < 100) :
    fetch_by_date_range (.ok p :: rest) = (p, 1, false) := by
  simp only [fetch_by_date_range]
  rw [if_neg (by simpa using h0), if_pos hlt]

/-- C2: a window fetch keeps requesting successive pages while each page
has exactly the page size (100); it stops at the first page of strictly
fewer than 100 items, regardless of any later responses.  Concretely,
pages of sizes 100, 100, 37 cause exactly 3 requests returning all 237
records, and a first page of 42 items causes exactly 1 request. -/
theorem pagination_termination :
    (∀ (p : List Event) (rest : List PageResult), p.length = 100 → rest ≠ [] →
        pageRequests (.ok p :: rest) = pageRequests rest + 1 ∧
        2 ≤ pageRequests (.ok p :: rest)) ∧
    (∀ (p : List Event) (rest : List PageResult), p.length < 100 →
        fetch_by_date_range (.ok p :: rest) = fetch_by_date_range [.ok p] ∧
        pageRequests (.ok p :: rest) = 1) ∧
    pageRequests [.ok (mkPage 100), .ok (mkPage 100), .ok (mkPage 37)] = 3 ∧
    (fetch_by_date_range [.ok (mkPage 100), .ok (mkPage 100), .ok (mkPage 37)]).1.length = 237 ∧
    pageRequests [.ok (mkPage 42)] = 1 ∧
    (fetch_by_date_range [.ok (mkPage 42)]).1.length = 42 := by
  have h37 : fetch_by_date_range [.ok (mkPage 37)] = (mkPage 37, 1, false) :=
    fetch_short_page _ _ (by simp [mkPage]) (by simp [mkPage_length])
  have h2 := fetch_full_page_step (mkPage 100) [.ok (mkPage 37)] (mkPage_length 100)
  have h1 := fetch_full_page_step (mkPage 100) [.ok (mkPage 100), .ok (mkPage 37)]
    (mkPage_length 100)
  have h42 : fetch_by_date_range [.ok (mkPage 42)] = (mkPage 42, 1, false) :=
    fetch_short_page _ _ (by simp [mkPage]) (by simp [mkPage_length])
  refine ⟨?_, ?_, ?_, ?_, ?_, ?_⟩
  · intro p rest hp hrest
    have hstep := fetch_full_page_step p rest hp
    have hpos := pageRequests_pos rest hrest
    simp only [pageRequests] at hpos ⊢
    rw [hstep]
    dsimp only
    omega
  · intro p rest hp
    by_cases hne : p = []
    · subst hne
      constructor <;> simp [fetch_by_date_range, pageRequests]
    · have := fetch_short_page p rest hne hp
      have h1p := fetch_short_page p [] hne hp
      constructor
      · rw [this, h1p]
      · simp [pageRequests, this]
  · simp [pageRequests, h1, h2, h37]
  · simp [h1, h2, h37, mkPage_length]
  · simp [pageRequests, h42]
  · simp [h42, mkPage_length]

/-- Witness for the pagination theorem: its general clauses applied to a
concrete full page followed by a short page. -/
theorem pagination_termination_witness :
    pageRequests [.ok (mkPage 100), .ok (mkPage 37)] = pageRequests [.ok (mkPage 37)] + 1 ∧
    pageRequests [.ok (mkPage 37), .err] = 1 :=
  ⟨(pagination_termination.1 (mkPage 100) [.ok (mkPage 37)] (mkPage_length 100) (by simp)).1,
   (pagination_termination.2.1 (mkPage 37) [.err] (by simp [mkPage_length])).2⟩

end CleanFetch

namespace CleanFetch

lemma mkWindows_step (c e : Int) (h : c ≤ e) :
    mkWindows c e =
      (c, min (c + (window_days - 1)) e) :: mkWindows (min (c + (window_days - 1)) e + 1) e := by
  rw [mkWindows]
  simp [h]

lemma mkWindows_nil (c e : Int) (h : ¬c ≤ e) : mkWindows c e = [] := by
  rw [mkWindows]
  simp [h]

/-- C5: for start <= end the window plan is nonempty, starts at start,
ends exactly at end, consecutive windows are contiguous (next start is
previous end plus one, so no gap and no overlap), every window lies
inside the range, and every window except possibly the last spans the
full 7 days. -/
theorem window_plan (s e : Int) (h : s ≤ e) :
    mkWindows s e ≠ [] ∧
    ((mkWindows s e).head?).map Prod.fst = some s ∧
    ((mkWindows s e).getLast?).map Prod.snd = some e ∧
    (mkWindows s e).Chain' (fun a b => b.1 = a.2 + 1) ∧
    (∀ w ∈ mkWindows s e, w.1 ≤ w.2 ∧ w.2 ≤ e) ∧
    (∀ w ∈ (mkWindows s e).dropLast, w.2 = w.1 + (window_days - 1)) := by
  induction s, e using mkWindows.induct with
  | case2 c e hnot => exact absurd h hnot
  | case1 c e hc wEnd ih =>
    by_cases hlast : e ≤ c + (window_days - 1)
    · have hmin : min (c + (window_days - 1)) e = e := min_eq_right hlast
      have htail : mkWindows (e + 1) e = [] := mkWindows_nil _ _ (by omega)
      rw [mkWindows_step c e hc, hmin, htail]
      refine ⟨by simp, by simp, by simp, by simp, ?_, by simp⟩
      intro w hw
      simp only [List.mem_singleton] at hw
      subst hw
      exact ⟨hc, le_refl e⟩
    · have hmin : min (c + (window_days - 1)) e = c + (window_days - 1) :=
        min_eq_left (by omega)
      have h2 : min (c + (window_days - 1)) e + 1 ≤ e := by
        rw [hmin]
        simp only [window_days] at hlast ⊢
        omega
      obtain ⟨hne, hhead, hgetLast, hchain, hbounds, hspan⟩ := ih h2
      have hweq : wEnd = c + (window_days - 1) := hmin
      rw [hweq] at hne hhead hgetLast hchain hbounds hspan
      rw [mkWindows_step c e hc, hmin]
      set tail := mkWindows (c + (window_days - 1) + 1) e with htaildef
      obtain ⟨x, t', hxt⟩ := List.exists_cons_of_ne_nil hne
      refine ⟨by simp, by simp, ?_, ?_, ?_, ?_⟩
      · rw [hxt, List.getLast?_cons_cons]
        rw [hxt] at hgetLast
        exact hgetLast
      · apply List.chain'_cons'.mpr
        refine ⟨?_, hchain⟩
        intro y hy
        have : tail.head? = some y := hy
        rw [hxt] at this
        simp only [List.head?_cons, Option.some.injEq] at this
        subst this
        rw [hxt] at hhead
        simp at hhead
        simp [hhead]
      · intro w hw
        rcases List.mem_cons.mp hw with hw | hw
        · subst hw
          constructor
          · simp only [window_days]; omega
          · simp only [window_days] at hlast ⊢; omega
        · exact hbounds w hw
      · rw [hxt, List.dropLast_cons₂]
        intro w hw
        rcases List.mem_cons.mp hw with hw | hw
        · subst hw
          rfl
        · exact hspan w (by rw [hxt]; exact hw)

/-- Witness for the window-plan theorem at a concrete 21-day range. -/
theorem window_plan_witness :
    mkWindows 0 20 ≠ [] ∧
    ((mkWindows 0 20).head?).map Prod.fst = some 0 ∧
    ((mkWindows 0 20).getLast?).map Prod.snd = some 20 ∧
    (mkWindows 0 20).Chain' (fun a b => b.1 = a.2 + 1) ∧
    (∀ w ∈ mkWindows 0 20, w.1 ≤ w.2 ∧ w.2 ≤ 20) ∧
    (∀ w ∈ (mkWindows 0 20).dropLast, w.2 = w.1 + (window_days - 1)) :=
  window_plan 0 20 (by norm_num)

end CleanFetch

namespace CleanFetch

/-- C7: a transport or server error anywhere mid-pagination — after any
number of already-collected full pages, zero included — stops the
window's fetch at once (one request past the collected pages, no retry,
result independent of any later responses), all pages collected before
the error are still returned and the caught error is reported via the
error flag, and the sweep merges the partial result and continues with
the following windows. -/
theorem window_error_resilience :
    (∀ (pre : List (List Event)) (rest : List PageResult),
        (∀ p ∈ pre, p.length = 100) →
        fetch_by_date_range (pre.map PageResult.ok ++ .err :: rest) =
          (pre.flatten, pre.length + 1, true)) ∧
    (∀ (w : Int × Int) (ws : List (Int × Int)) (server : Int × Int → List PageResult)
        (st : Store) (pre : List (List Event)),
        (∀ p ∈ pre, p.length = 100) → server w = pre.map PageResult.ok ++ [.err] →
        runWindows server (w :: ws) st =
          runWindows server ws (pre.flatten.foldl phase1StoreEvent st)) := by
  have herr : ∀ (pre : List (List Event)) (rest : List PageResult),
      (∀ p ∈ pre, p.length = 100) →
      fetch_by_date_range (pre.map PageResult.ok ++ .err :: rest) =
        (pre.flatten, pre.length + 1, true) := by
    intro pre
    induction pre with
    | nil => intro rest _; simp [fetch_by_date_range]
    | cons p pre ih =>
      intro rest hfull
      rw [List.map_cons, List.cons_append,
        fetch_full_page_step p _ (hfull p (List.mem_cons_self p pre)),
        ih rest (fun q hq => hfull q (List.mem_cons_of_mem p hq))]
      simp [List.flatten_cons]
  refine ⟨herr, ?_⟩
  intro w ws server st pre hfull hsrv
  have h1 : fetch_by_date_range (server w) = (pre.flatten, pre.length + 1, true) := by
    rw [hsrv]
    exact herr pre [] hfull
  simp [runWindows, List.foldl_cons, h1]

/-- Witness for the error-resilience theorem on a concrete window whose
third page request fails after two collected full pages. -/
theorem window_error_resilience_witness :
    fetch_by_date_range ([mkPage 100, mkPage 100].map PageResult.ok ++ [.err]) =
      ([mkPage 100, mkPage 100].flatten, 3, true) ∧
    runWindows (fun _ => [mkPage 100, mkPage 100].map PageResult.ok ++ [.err]) [(0, 6)] [] =
      runWindows (fun _ => [mkPage 100, mkPage 100].map PageResult.ok ++ [.err]) []
        (([mkPage 100, mkPage 100].flatten).foldl phase1StoreEvent []) :=
  ⟨window_error_resilience.1 [mkPage 100, mkPage 100] [] (by simp [mkPage_length]),
   window_error_resilience.2 (0, 6) [] _ [] [mkPage 100, mkPage 100]
     (by simp [mkPage_length]) rfl⟩

/-- C8 as the code actually behaves: the constructor performs no date
validation — with start > end it succeeds and returns a session, the
window plan is empty, and Phase 1 performs no fetch work, leaving the
store unchanged. -/
theorem invalid_dates_no_fetch (s e : Int) (h : e < s) :
    CleanFetcher.init s e = { start_date := s, end_date := e, all_events := [] } ∧
    mkWindows s e = [] ∧
    (∀ (server : Int × Int → List PageResult) (st : Store),
        phase1_date_based_fetch s e server st = st) := by
  refine ⟨rfl, mkWindows_nil s e (by omega), fun server st => ?_⟩
  simp [phase1_date_based_fetch, runWindows, mkWindows_nil s e (by omega)]

/-- Witness for the no-validation theorem at concrete inverted dates. -/
theorem invalid_dates_no_fetch_witness :
    mkWindows 12 3 = [] ∧
    phase1_date_based_fetch 12 3 (fun _ => [.ok (mkPage 5)]) [] = [] :=
  ⟨(invalid_dates_no_fetch 12 3 (by norm_num)).2.1,
   (invalid_dates_no_fetch 12 3 (by norm_num)).2.2 _ []⟩

/-- Counterexample to C8 as stated: constructing a session with
start 10 > end 5 does not fail — `CleanFetcher.init` has no
`ConfigurationError` raise and no date comparison, so it returns a
session, and the run then proceeds with an empty window plan rather
than failing at session start. -/
theorem no_configuration_error_counterexample :
    CleanFetcher.init 10 5 = { start_date := 10, end_date := 5, all_events := [] } ∧
    mkWindows 10 5 = [] ∧
    phase1_date_based_fetch 10 5 (fun _ => []) [] = [] := by
  have hnil : mkWindows (10 : Int) 5 = [] := mkWindows_nil 10 5 (by norm_num)
  exact ⟨rfl, hnil, by simp [phase1_date_based_fetch, runWindows, hnil]⟩

end CleanFetch

namespace CleanFetch

/-- C3: a Phase-2 point lookup answered with HTTP 404, or with a 2xx
response carrying an empty array, yields no record, leaves the store
untouched and does not increment the fetched counter (the not-found
counter is bumped instead); a lookup answered with one record merges it
into the store and increments the fetched counter by one. -/
theorem point_lookup_classification :
    (∀ (s : Store) (f nf : Nat) (body : List Event),
        fetch_by_id (.status 404 body) = none ∧
        phase2Step (s, f, nf) (.status 404 body) = (s, f, nf + 1)) ∧
    (∀ (s : Store) (f nf code : Nat), 200 ≤ code → code < 300 →
        fetch_by_id (.status code []) = none ∧
        phase2Step (s, f, nf) (.status code []) = (s, f, nf + 1)) ∧
    (∀ (s : Store) (f nf code : Nat) (e : Event), 200 ≤ code → code < 300 →
        fetch_by_id (.status code [e]) = some e ∧
        phase2Step (s, f, nf) (.status code [e]) =
          (storeMerge s e.service_request_id e, f + 1, nf)) := by
  refine ⟨?_, ?_, ?_⟩
  · intro s f nf body
    have h404 : fetch_by_id (.status 404 body) = none := by
      simp [fetch_by_id]
    exact ⟨h404, by simp [phase2Step, h404]⟩
  · intro s f nf code h1 h2
    have h : fetch_by_id (.status code []) = none := by
      by_cases hc : 200 ≤ code ∧ code < 300 <;> simp [fetch_by_id, hc]
    exact ⟨h, by simp [phase2Step, h]⟩
  · intro s f nf code e h1 h2
    have h : fetch_by_id (.status code [e]) = some e := by
      simp [fetch_by_id, h1, h2]
    exact ⟨h, by simp [phase2Step, h]⟩

/-- Witness for the point-lookup classification at concrete responses. -/
theorem point_lookup_classification_witness :
    phase2Step ([], 0, 0) (.status 404 []) = ([], 0, 1) ∧
    phase2Step ([], 0, 0) (.status 200 []) = ([], 0, 1) ∧
    phase2Step ([], 0, 0) (.status 200 [⟨some "9-2024", none, 7⟩]) =
      (storeMerge [] (some "9-2024") ⟨some "9-2024", none, 7⟩, 1, 0) :=
  ⟨(point_lookup_classification.1 [] 0 0 []).2,
   (point_lookup_classification.2.1 [] 0 0 200 (by norm_num) (by norm_num)).2,
   (point_lookup_classification.2.2 [] 0 0 200 ⟨some "9-2024", none, 7⟩
     (by norm_num) (by norm_num)).2⟩

/-- C10: a found Phase-2 record is stored under the
`service_request_id` of the returned record itself; when that field
differs from the requested composite ID and the requested ID is absent
from the store, it remains absent after the merge. -/
theorem backfill_stores_under_returned_id (s : Store) (f nf : Nat)
    (code n : Nat) (y : String) (e : Event)
    (h1 : 200 ≤ code) (h2 : code < 300)
    (habs : storeLookup s (some (mkServiceRequestId n y)) = none)
    (hne : e.service_request_id ≠ some (mkServiceRequestId n y)) :
    storeLookup (phase2Step (s, f, nf) (.status code [e])).1 e.service_request_id = some e ∧
    storeLookup (phase2Step (s, f, nf) (.status code [e])).1
      (some (mkServiceRequestId n y)) = none := by
  have h : fetch_by_id (.status code [e]) = some e := by
    simp [fetch_by_id, h1, h2]
  have hstep : (phase2Step (s, f, nf) (.status code [e])).1 =
      storeMerge s e.service_request_id e := by
    simp [phase2Step, h]
  rw [hstep]
  refine ⟨storeLookup_storeMerge_self s _ e, ?_⟩
  rw [storeLookup_storeMerge_ne (Ne.symm hne)]
  exact habs

/-- Witness for the returned-ID merge theorem: the lookup requested ID
4-2024 but the registry returned a record calling itself 9-2024. -/
theorem backfill_stores_under_returned_id_witness :
    storeLookup (phase2Step ([], 0, 0) (.status 200 [⟨some "9-2024", none, 1⟩])).1
      (some "9-2024") = some ⟨some "9-2024", none, 1⟩ ∧
    storeLookup (phase2Step ([], 0, 0) (.status 200 [⟨some "9-2024", none, 1⟩])).1
      (some (mkServiceRequestId 4 "2024")) = none :=
  backfill_stores_under_returned_id [] 0 0 200 4 "2024" ⟨some "9-2024", none, 1⟩
    (by norm_num) (by norm_num) (by simp [storeLookup])
    (by simp [mkServiceRequestId]; decide)

lemma flatten_toBatches (l : List Nat) : (toBatches l).flatten = l := by
  induction l using toBatches.induct with
  | case1 => simp [toBatches]
  | case2 x xs ih =>
    rw [toBatches]
    simp only [List.flatten_cons, ih, List.take_append_drop]

lemma phase2TraceYear_eq (year : String) (missing : Finset Nat) :
    phase2TraceYear year missing =
      (missing.sort (· ≤ ·)).map (fun n => P2Action.lookup n year) := by
  unfold phase2TraceYear
  rw [← List.map_flatten, flatten_toBatches]

/-- C9 as the code actually behaves: the Phase-2 loop issues its point
lookups back to back — every action in its trace is a lookup and no
delay action is ever emitted between them (there is no sleep call in
the loop body). -/
theorem phase2_no_delay (year : String) (missing : Finset Nat) :
    ∀ a ∈ phase2TraceYear year missing, isLookup a = true := by
  intro a ha
  rw [phase2TraceYear_eq] at ha
  obtain ⟨n, _, rfl⟩ := List.mem_map.mp ha
  rfl

/-- Witness for the no-delay theorem on a singleton missing set. -/
theorem phase2_no_delay_witness :
    isLookup (P2Action.lookup 3 "2024") = true :=
  phase2_no_delay "2024" {3} (P2Action.lookup 3 "2024")
    (by rw [phase2TraceYear_eq, Finset.sort_singleton]; simp)

/-- Counterexample to C9 as stated: with missing IDs 3 and 7 the
Phase-2 trace is two adjacent lookups with no delay action between
them, so no minimum delay is enforced between consecutive lookups. -/
theorem phase2_no_delay_counterexample :
    phase2TraceYear "2024" {3, 7} =
      [P2Action.lookup 3 "2024", P2Action.lookup 7 "2024"] ∧
    ¬ rateLimited (phase2TraceYear "2024" {3, 7}) := by
  have hsort : Finset.sort (· ≤ ·) ({3, 7} : Finset Nat) = [3, 7] := by
    have hi : Finset.sort (· ≤ ·) (insert 3 ({7} : Finset Nat)) =
        3 :: Finset.sort (· ≤ ·) ({7} : Finset Nat) :=
      Finset.sort_insert (· ≤ ·) (by simp) (by simp)
    simpa [Finset.sort_singleton] using hi
  have htr : phase2TraceYear "2024" {3, 7} =
      [P2Action.lookup 3 "2024", P2Action.lookup 7 "2024"] := by
    rw [phase2TraceYear_eq, hsort]
    rfl
  refine ⟨htr, ?_⟩
  rw [htr]
  simp [rateLimited, isLookup]

end CleanFetch

namespace CleanFetch

lemma lookup_filterMap_keyed {β : Type} (f : String → Option β) :
    ∀ (l : List String), l.Nodup → ∀ y : String,
      (l.filterMap (fun x => (f x).map (fun b => (x, b)))).lookup y =
        if y ∈ l then f y else none := by
  intro l
  induction l with
  | nil => intro _ y; simp
  | cons x xs ih =>
    intro hnd y
    obtain ⟨hx, hxs⟩ := List.nodup_cons.mp hnd
    rw [List.filterMap_cons]
    cases hfx : f x with
    | none =>
      simp only [Option.map_none']
      rw [ih hxs y]
      by_cases hyx : y = x
      · subst hyx
        rw [if_neg hx, if_pos (List.mem_cons_self y xs), hfx]
      · simp [List.mem_cons, hyx]
    | some b =>
      simp only [Option.map_some']
      by_cases hyx : y = x
      · subst hyx
        simp [List.lookup, hfx]
      · have hbeq : (y == x) = false := beq_eq_false_iff_ne.mpr hyx
        simp only [List.lookup, hbeq]
        rw [ih hxs y]
        simp [List.mem_cons, hyx]

lemma sortedYears_nodup (parsed : List (Nat × String)) :
    (sortedYears parsed).Nodup :=
  ((List.perm_insertionSort _ _).nodup_iff).mpr (List.nodup_dedup _)

lemma mem_sortedYears (parsed : List (Nat × String)) (y : String) :
    y ∈ sortedYears parsed ↔ y ∈ parsed.map Prod.snd := by
  rw [sortedYears]
  rw [(List.perm_insertionSort _ _).mem_iff]
  exact List.mem_dedup

lemma observedIds_eq_empty_iff (parsed : List (Nat × String)) (y : String) :
    observedIds parsed y = ∅ ↔ y ∉ parsed.map Prod.snd := by
  rw [observedIds, List.toFinset_eq_empty_iff, List.filterMap_eq_nil_iff]
  constructor
  · intro h hm
    obtain ⟨p, hp, hpy⟩ := List.mem_map.mp hm
    have := h p hp
    rw [if_pos hpy] at this
    exact Option.some_ne_none _ this
  · intro h p hp
    rw [if_neg (fun hpy => h (List.mem_map.mpr ⟨p, hp, hpy⟩))]

/-- C1: gap analysis per partition.  Whenever the grouping of store keys
succeeds, a partition with at least one observed sequence number gets
the entry `missing = {1..maxObserved} \ observed`, and a partition with
no observed sequence number gets no entry at all.  Concretely, observed
IDs 1,2,4,5 in 2024 yield missing {3}; observed 1..5 yield missing ∅;
and keys only from 2025 give no entry for 2024. -/
theorem gap_analysis (keys : List String) (parsed : List (Nat × String))
    (hp : ids_by_year keys = some parsed) :
    (∃ result, analyze_missing_ids keys = some result ∧
      ∀ year : String,
        (observedIds parsed year ≠ ∅ →
          result.lookup year = some (Finset.Icc 1 ((observedIds parsed year).sup id) \
            observedIds parsed year)) ∧
        (observedIds parsed year = ∅ → result.lookup year = none)) ∧
    analyze_missing_ids ["1-2024", "2-2024", "4-2024", "5-2024"] = some [("2024", {3})] ∧
    analyze_missing_ids ["1-2024", "2-2024", "3-2024", "4-2024", "5-2024"] =
      some [("2024", ∅)] ∧
    (analyze_missing_ids ["1-2025"]).map (fun r => r.lookup "2024") = some none := by
  refine ⟨?_, by decide, by decide, by decide⟩
  have hres : analyze_missing_ids keys =
      some ((sortedYears parsed).filterMap (fun y =>
        let ids := observedIds parsed y
        if ids = ∅ then none
        else some (y, Finset.Icc 1 (ids.sup id) \ ids))) := by
    rw [analyze_missing_ids, hp, Option.map_some']
  refine ⟨_, hres, fun year => ?_⟩
  have hfun : (fun y =>
        let ids := observedIds parsed y
        if ids = ∅ then none
        else some (y, Finset.Icc 1 (ids.sup id) \ ids)) =
      (fun y => (Option.map (fun b => (y, b))
        (if observedIds parsed y = ∅ then none
         else some (Finset.Icc 1 ((observedIds parsed y).sup id) \ observedIds parsed y)))) := by
    funext y
    by_cases h : observedIds parsed y = ∅ <;> simp [h]
  rw [hfun]
  have hlk := lookup_filterMap_keyed
    (fun y => if observedIds parsed y = ∅ then none
      else some (Finset.Icc 1 ((observedIds parsed y).sup id) \ observedIds parsed y))
    (sortedYears parsed) (sortedYears_nodup parsed) year
  constructor
  · intro hne
    have hm : year ∈ sortedYears parsed := by
      rw [mem_sortedYears]
      by_contra hnm
      exact hne ((observedIds_eq_empty_iff parsed year).mpr hnm)
    rw [hlk, if_pos hm, if_neg hne]
  · intro hemp
    have hnm : year ∉ sortedYears parsed := by
      rw [mem_sortedYears]
      exact (observedIds_eq_empty_iff parsed year).mp hemp
    rw [hlk, if_neg hnm]

/-- Witness for the gap-analysis theorem: keys 1-2024 and 3-2024 group
successfully; the 2024 partition reports missing {2} and the 2025
partition has no entry. -/
theorem gap_analysis_witness :
    (∃ result, analyze_missing_ids ["1-2024", "3-2024"] = some result ∧
      ∀ year : String,
        (observedIds [(1, "2024"), (3, "2024")] year ≠ ∅ →
          result.lookup year =
            some (Finset.Icc 1 ((observedIds [(1, "2024"), (3, "2024")] year).sup id) \
              observedIds [(1, "2024"), (3, "2024")] year)) ∧
        (observedIds [(1, "2024"), (3, "2024")] year = ∅ →
          result.lookup year = none)) ∧
    analyze_missing_ids ["1-2024", "2-2024", "4-2024", "5-2024"] = some [("2024", {3})] ∧
    analyze_missing_ids ["1-2024", "2-2024", "3-2024", "4-2024", "5-2024"] =
      some [("2024", ∅)] ∧
    (analyze_missing_ids ["1-2025"]).map (fun r => r.lookup "2024") = some none :=
  gap_analysis ["1-2024", "3-2024"] [(1, "2024"), (3, "2024")] (by decide)

lemma empty_string_le (t : String) : "" ≤ t := by
  rw [String.le_iff_toList_le]
  simp only [String.toList_empty]
  exact List.nil_le

/-- C6: the finalized output list is non-increasing in the record
timestamp (a missing timestamp reads as the empty string), every record
with a missing or empty timestamp appears after all records that have
one, and the output is a permutation of the store's records. -/
theorem output_sorted_descending (s : Store) :
    List.Pairwise byDateDesc (save_to_file s) ∧
    (∀ i j : Fin (save_to_file s).length, i < j →
        sortKey ((save_to_file s).get i) = "" → sortKey ((save_to_file s).get j) = "") ∧
    List.Perm (save_to_file s) (s.map Prod.snd) := by
  have hsorted : List.Sorted byDateDesc (save_to_file s) :=
    List.sorted_insertionSort byDateDesc (s.map Prod.snd)
  refine ⟨hsorted, ?_, List.perm_insertionSort byDateDesc (s.map Prod.snd)⟩
  intro i j hij hempty
  have hrel : byDateDesc ((save_to_file s).get i) ((save_to_file s).get j) :=
    List.pairwise_iff_get.mp hsorted i j hij
  rw [byDateDesc, hempty] at hrel
  exact le_antisymm hrel (empty_string_le _)

end CleanFetch
